import Mathlib

/-!
Verification of the pdf-redactor backend (src/backend/app).

The Python source is shallowly embedded: JSON values produced by
`json.loads` become the inductive `JVal`; functions that can raise become
`Except PyErr`; Python dicts (insertion ordered, distinct keys) become
association lists `List (String × _)` with explicit key-nodup hypotheses
where the dict invariant matters; Python `set[int]` becomes `Finset Int`.
-/

deriving instance DecidableEq for Except

namespace PdfRedactor

/-- A JSON value as returned by `json.loads`, specialised to the shapes the
backend manipulates.  JSON numbers are modelled as integers (the payloads
the backend reads from number slots are block IDs); objects are
insertion-ordered association lists, whose keys are distinct whenever the
value came from `json.loads`. -/
inductive JVal where
  | jNull
  | jBool (b : Bool)
  | jNum (n : Int)
  | jStr (s : String)
  | jArr (elems : List JVal)
  | jObj (entries : List (String × JVal))

/-- The Python exception classes the embedded code can raise.
`coercionError` stands for the ValueError/TypeError raised by a failing
`int(i)` coercion; `validationError` for a pydantic ValidationError;
`typeError` for iterating a non-iterable; `valueError` for the explicit
`raise ValueError` sites in `ai_service.py`. -/
inductive PyErr where
  | attributeError
  | typeError
  | valueError
  | coercionError
  | validationError
deriving DecidableEq

/-- The ASCII whitespace characters recognised by Python `str.strip()`. -/
def isPySpace (c : Char) : Bool :=
  c == ' ' || c == '\t' || c == '\n' || c == '\r' || c == '\x0b' || c == '\x0c'

/-- Python `str.strip()` on a list of characters. -/
def stripChars (l : List Char) : List Char :=
  ((l.dropWhile isPySpace).reverse.dropWhile isPySpace).reverse

/-- Python `str.strip()`. -/
def pyStrip (s : String) : String := String.mk (stripChars s.data)

/-- Value of a list of decimal digits. -/
def digitsVal (l : List Char) : Nat := l.foldl (fun a c => a * 10 + (c.toNat - 48)) 0

/-- Python `int(s)` on a string: strip whitespace, optional sign, decimal
digits (numeric-literal underscores and alternate bases are not modelled:
no code path in this development exercises them). -/
def parseIntStr (s : String) : Option Int :=
  match stripChars s.data with
  | '+' :: rest => if !rest.isEmpty && rest.all Char.isDigit then some (digitsVal rest) else none
  | '-' :: rest => if !rest.isEmpty && rest.all Char.isDigit then some (-(digitsVal rest : Int)) else none
  | rest => if !rest.isEmpty && rest.all Char.isDigit then some (digitsVal rest) else none

/-- Python `int(i)` on a JSON value: ints pass through, bools map to 0/1,
integer-literal strings are parsed, everything else raises
(ValueError for bad strings, TypeError for null/list/dict — both modelled
as `coercionError`). -/
def pyInt : JVal → Except PyErr Int
  | .jBool b => .ok (if b then 1 else 0)
  | .jNum n => .ok n
  | .jStr s =>
    match parseIntStr s with
    | some n => .ok n
    | none => .error .coercionError
  | _ => .error .coercionError

/-- Python iteration `[... for i in v]`: lists yield elements, strings
yield one-character strings, dicts yield their keys, everything else
raises TypeError. -/
def pyIterList : JVal → Except PyErr (List JVal)
  | .jArr xs => .ok xs
  | .jStr s => .ok (s.data.map fun c => .jStr (String.mk [c]))
  | .jObj kvs => .ok (kvs.map fun kv => .jStr kv.1)
  | _ => .error .typeError

/-- Python truthiness of a JSON value. -/
def pyFalsy : JVal → Bool
  | .jNull => true
  | .jBool b => !b
  | .jNum n => n == 0
  | .jStr s => s == ""
  | .jArr l => l.isEmpty
  | .jObj l => l.isEmpty

/-- `d.get(k, dflt)` on an association list. -/
def dictGet {α : Type} (kvs : List (String × α)) (k : String) (dflt : α) : α :=
  match kvs.find? (fun kv => kv.1 == k) with
  | some kv => kv.2
  | none => dflt

/-- `d[k] = v` on an association list: replace in place, else append
(Python dict assignment keeps the key position; new keys go last). -/
def dictSet {α : Type} (kvs : List (String × α)) (k : String) (v : α) : List (String × α) :=
  if kvs.any (fun kv => kv.1 == k) then
    kvs.map (fun kv => if kv.1 == k then (k, v) else kv)
  else kvs ++ [(k, v)]

/-- `d.setdefault(k, v)` on an association list. -/
def dictSetDefault {α : Type} (kvs : List (String × α)) (k : String) (v : α) : List (String × α) :=
  if kvs.any (fun kv => kv.1 == k) then kvs else kvs ++ [(k, v)]

/-- pydantic validation of one element of a `list[str]` field. -/
def showStr : JVal → Except PyErr String
  | .jStr s => .ok s
  | _ => .error .validationError

/-- pydantic validation of a `list[str]` field (`ClassifyResponse.shows`):
a JSON array of strings is accepted, anything else is a ValidationError. -/
def toShows : JVal → Except PyErr (List String)
  | .jArr xs => xs.mapM showStr
  | _ => .error .validationError

/-- `models.ClassifyResponse`: a shows list plus the insertion-ordered
assignments mapping from category key to block-ID list. -/
structure ClassifyResponse where
  shows : List String
  assignments : List (String × List Int)
deriving DecidableEq

/-- The coercion loop of `_validate_classification`
(`assignments[key] = [int(i) for i in ids]` over every entry). -/
def coerceAssignments (akvs : List (String × JVal)) :
    Except PyErr (List (String × List Int)) :=
  akvs.mapM fun kv => do
    let elems ← pyIterList kv.2
    let ints ← elems.mapM pyInt
    pure (kv.1, ints)

/-- The running union `assigned_ids` of all coerced category lists. -/
def unionIds (asg : List (String × List Int)) : Finset Int :=
  asg.foldl (fun s kv => s ∪ kv.2.toFinset) ∅

/-- The ID-repair steps of `_validate_classification`: append the sorted
missing IDs to UNCLASSIFIED, filter hallucinated IDs out of every
category, then ensure the three reserved keys exist. -/
def reconcileAssignments (coerced : List (String × List Int)) (allBlockIds : Finset Int) :
    List (String × List Int) :=
  let assignedIds := unionIds coerced
  let missing := allBlockIds \ assignedIds
  let asg1 :=
    if missing = ∅ then coerced
    else dictSet coerced "UNCLASSIFIED"
      (dictGet coerced "UNCLASSIFIED" [] ++ missing.sort (· ≤ ·))
  let extra := assignedIds \ allBlockIds
  let asg2 :=
    if extra = ∅ then asg1
    else asg1.map (fun kv => (kv.1, kv.2.filter (fun i => decide (i ∈ allBlockIds))))
  dictSetDefault (dictSetDefault (dictSetDefault asg2 "GLOBAL" []) "GLOBAL_REDACT" []) "UNCLASSIFIED" []

/-- `ai_service._validate_classification`.  The input is the untrusted
`json.loads` result; `.get` on a non-dict raises AttributeError,
element coercion can raise, and the final `ClassifyResponse(...)`
construction validates `shows` as `list[str]`. -/
def validateClassification (classification : JVal) (allBlockIds : Finset Int) :
    Except PyErr ClassifyResponse :=
  match classification with
  | .jObj kvs =>
    let showsV := dictGet kvs "shows" (.jArr [])
    match dictGet kvs "assignments" (.jObj []) with
    | .jObj akvs => do
      let coerced ← coerceAssignments akvs
      let asg := reconcileAssignments coerced allBlockIds
      let shows ← toShows showsV
      pure { shows := shows, assignments := asg }
    | _ => .error .attributeError
  | _ => .error .attributeError

/-! ## `_strip_json_from_response`

The function strips a leading/trailing markdown code fence using the
regex `^\x60\x60\x60(?:json)?\s*\n?(.*?)\n?\x60\x60\x60\s*$` (DOTALL), falling back to two
`re.sub` deletions when that regex does not match.  The regex semantics
are embedded directly: the engine tries the head alternatives in
preference order (literal `json` first, then greedy `\s*` backtracking
down, then `\n?` preferring to consume) and, for the first head for
which the rest of the input contains a closing-fence tail, returns the
lazily-minimal group. -/

/-- Does `\x60\x60\x60\s*` match this entire list (the closing-fence marker of
the regex followed by whitespace, anchored at the end)? -/
def fenceWs (l : List Char) : Bool :=
  (l.take 3 == ['\x60', '\x60', '\x60']) && (l.drop 3).all isPySpace

/-- The closing-fence tail including the optional leading newline
(`\n?\x60\x60\x60\s*` matching the entire list). -/
def sufMatch (l : List Char) : Bool :=
  fenceWs l || (if l.head? = some '\n' then fenceWs l.tail else false)

/-- Split `l` as `group ++ tail` at the earliest position where the
closing-fence tail matches through to the end (the lazy `(.*?)` group
takes the minimal prefix). -/
def findSuffixSplit (l : List Char) : Option (List Char × List Char) :=
  if sufMatch l then some ([], l)
  else
    match l with
    | [] => none
    | c :: rest => (findSuffixSplit rest).map (fun g => (c :: g.1, g.2))

/-- Remainders after `\s*`, in the order the greedy engine tries them
(longest run consumed first, backtracking down to zero characters). -/
def wsSplits : List Char → List (List Char)
  | [] => [[]]
  | c :: rest => if isPySpace c then wsSplits rest ++ [c :: rest] else [c :: rest]

/-- Remainders after `\n?`, preferring to consume the newline. -/
def nlRems (l : List Char) : List (List Char) :=
  if l.head? = some '\n' then [l.tail, l] else [l]

/-- All remainders after the regex head `\x60\x60\x60(?:json)?\s*\n?` (given the
input with the three leading backticks already removed), in engine
preference order. -/
def reHeadRems (l : List Char) : List (List Char) :=
  let bases := if l.take 4 = ['j', 's', 'o', 'n'] then [l.drop 4, l] else [l]
  bases.flatMap fun b => (wsSplits b).flatMap nlRems

/-- First candidate remainder that contains a closing-fence split. -/
def firstSplit : List (List Char) → Option (List Char × List Char)
  | [] => none
  | r :: rs =>
    match findSuffixSplit r with
    | some gs => some gs
    | none => firstSplit rs

/-- `match.group(1)` of the fence regex applied to `\x60\x60\x60 ++ l`, when the
regex matches. -/
def reMatchGroup (l : List Char) : Option (List Char) :=
  (firstSplit (reHeadRems l)).map (·.1)

/-- Python `\w` (ASCII portion; the fence tags this code meets are ASCII). -/
def isWordChar (c : Char) : Bool := c.isAlphanum || c == '_'

/-- `re.sub(r"^\x60\x60\x60\w*\n?", "", text)`. -/
def dropFenceHead (l : List Char) : List Char :=
  match l with
  | '\x60' :: '\x60' :: '\x60' :: rest =>
    match rest.dropWhile isWordChar with
    | '\n' :: r2 => r2
    | r => r
  | l2 => l2

/-- `re.sub(r"\n?\x60\x60\x60\s*$", "", text)`: delete the leftmost closing-fence
tail that reaches the end of the string, if any. -/
def dropFenceTail (l : List Char) : List Char :=
  match findSuffixSplit l with
  | some gs => gs.1
  | none => l

/-- `ai_service._strip_json_from_response` on the character list. -/
def stripJsonCore (raw : List Char) : List Char :=
  if raw.isEmpty || (stripChars raw).isEmpty then ['\x7b', '\x7d']
  else
    let text := stripChars raw
    if text.take 3 = ['\x60', '\x60', '\x60'] then
      match reMatchGroup (text.drop 3) with
      | some g => stripChars g
      | none => stripChars (dropFenceTail (dropFenceHead text))
    else text

/-- `ai_service._strip_json_from_response`. -/
def stripJsonFromResponse (raw : String) : String := String.mk (stripJsonCore raw.data)

/-! ## Data model (`models.py`) and the post-parse stages of
`classify_blocks` / `extract_contract_data` (`ai_service.py`)

The network call to the model is an external collaborator; what the code
does with its textual response is embedded.  The outcome of
`json.loads` (an external parser) is abstracted as an `Option JVal`
argument: `none` is a `json.JSONDecodeError`. -/

/-- `models.TextBlock`.  The bounding box is geometry consumed only by
the external PDF collaborator; its numeric values are modelled as
rationals. -/
structure TextBlock where
  block_id : Int
  page_number : Int
  bbox : List Rat
  text : String
deriving DecidableEq

/-- `classify_blocks` after the model call: strip, parse, and either the
all-UNCLASSIFIED fallback (on a JSON decode error) or
`_validate_classification`. -/
def classifyOnParse (parsed : Option JVal) (allBlockIds : Finset Int) :
    Except PyErr ClassifyResponse :=
  match parsed with
  | none =>
    .ok { shows := [], assignments := [("GLOBAL", []), ("UNCLASSIFIED", allBlockIds.sort (· ≤ ·))] }
  | some data => validateClassification data allBlockIds

mutual

/-- Python `repr` of a JSON value (enough of it for `str(ins)` on
non-string insertion entries). -/
def pyRepr : JVal → String
  | .jNull => "None"
  | .jBool true => "True"
  | .jBool false => "False"
  | .jNum n => toString n
  | .jStr s => "\x27" ++ s ++ "\x27"
  | .jArr xs => "[" ++ pyReprArr xs ++ "]"
  | .jObj kvs => "\x7b" ++ pyReprObj kvs ++ "\x7d"

def pyReprArr : List JVal → String
  | [] => ""
  | [x] => pyRepr x
  | x :: xs => pyRepr x ++ ", " ++ pyReprArr xs

def pyReprObj : List (String × JVal) → String
  | [] => ""
  | [kv] => "\x27" ++ kv.1 ++ "\x27: " ++ pyRepr kv.2
  | kv :: kvs => "\x27" ++ kv.1 ++ "\x27: " ++ pyRepr kv.2 ++ ", " ++ pyReprObj kvs

end

/-- Python `str(v)`: strings pass through, containers and scalars render
via `repr`. -/
def pyStrOf : JVal → String
  | .jStr s => s
  | v => pyRepr v

/-- `item.get(k, dflt)` on an untrusted JSON value: AttributeError unless
the value is a dict. -/
def itemGet (item : JVal) (k : String) (dflt : JVal) : Except PyErr JVal :=
  match item with
  | .jObj kvs => .ok (dictGet kvs k dflt)
  | _ => .error .attributeError

/-- pydantic validation of a `str` field. -/
def pyStr? : JVal → Except PyErr String
  | .jStr s => .ok s
  | _ => .error .validationError

/-- `models.ShowData` (`insertion_date` models the source field
`insertion_date_per_io`). -/
structure ShowData where
  podcast_booked : String
  agency : String
  advertiser : String
  type : String
  insertion_date : String
  draft_required_yn : String
  impressions : String
  amount : String
  payment_terms : String
  requires_pixel_tracker_yn : String
  notes : String
deriving DecidableEq

/-- The `base` dict built once per extracted show record (the nine
show-level fields fetched with their defaults). -/
structure ShowBase where
  podcast_booked : JVal
  agency : JVal
  advertiser : JVal
  type : JVal
  draft_required_yn : JVal
  impressions : JVal
  payment_terms : JVal
  requires_pixel_tracker_yn : JVal
  notes : JVal

/-- `ShowData(insertion_date_per_io=date, amount=amount, **base)`:
pydantic validates every field as `str`. -/
def mkRow (b : ShowBase) (date amount : JVal) : Except PyErr ShowData := do
  let pb ← pyStr? b.podcast_booked
  let ag ← pyStr? b.agency
  let ad ← pyStr? b.advertiser
  let ty ← pyStr? b.type
  let dt ← pyStr? date
  let dr ← pyStr? b.draft_required_yn
  let im ← pyStr? b.impressions
  let am ← pyStr? amount
  let pt ← pyStr? b.payment_terms
  let px ← pyStr? b.requires_pixel_tracker_yn
  let no ← pyStr? b.notes
  pure ⟨pb, ag, ad, ty, dt, dr, im, am, pt, px, no⟩

/-- One loop iteration of `for ins in insertions`: dict entries supply
their date/amount slots, anything else is stringified into the date. -/
def rowOfIns (b : ShowBase) : JVal → Except PyErr ShowData
  | .jObj kvs =>
    mkRow b (dictGet kvs "date" (.jStr "Not specified")) (dictGet kvs "amount" (.jStr "Not specified"))
  | v => mkRow b (.jStr (pyStrOf v)) (.jStr "Not specified")

/-- `if isinstance(old_dates, str): old_dates = [old_dates] if old_dates
else ["Not specified"]` — normalize a legacy string date into a list. -/
def normalizeOldDates (v : JVal) : JVal :=
  match v with
  | .jStr s => if s == "" then JVal.jArr [.jStr "Not specified"] else .jArr [.jStr s]
  | v2 => v2

/-- `insertions = [{"date": d, "amount": old_amount} for d in old_dates]`. -/
def legacyInsertions (ds : List JVal) (oldAmount : JVal) : List JVal :=
  ds.map fun d => JVal.jObj [("date", d), ("amount", oldAmount)]

/-- The single placeholder insertion used when a record has no dates. -/
def placeholderIns : JVal :=
  .jObj [("date", .jStr "Not specified"), ("amount", .jStr "Not specified")]

/-- The per-record body of the extraction loop in `extract_contract_data`
(lines 353-388): build the base fields, resolve the insertion list
(current format, then the legacy `insertion_date_per_io` format, then
the single placeholder), and emit one row per insertion. -/
def itemToRows (item : JVal) : Except PyErr (List ShowData) := do
  let b : ShowBase := {
    podcast_booked := ← itemGet item "podcast_booked" (.jStr "Not specified")
    agency := ← itemGet item "agency" (.jStr "Not specified")
    advertiser := ← itemGet item "advertiser" (.jStr "Not specified")
    type := ← itemGet item "type" (.jStr "Not specified")
    draft_required_yn := ← itemGet item "draft_required_yn" (.jStr "N")
    impressions := ← itemGet item "impressions" (.jStr "Not specified")
    payment_terms := ← itemGet item "payment_terms" (.jStr "Not specified")
    requires_pixel_tracker_yn := ← itemGet item "requires_pixel_tracker_yn" (.jStr "N")
    notes := ← itemGet item "notes" (.jStr "") }
  let ins0 ← itemGet item "insertion_dates" (.jArr [])
  let srcRows : List JVal ←
    if pyFalsy ins0 then do
      let oldDates0 ← itemGet item "insertion_date_per_io" (.jArr [])
      let oldAmount ← itemGet item "amount" (.jStr "Not specified")
      let ds ← pyIterList (normalizeOldDates oldDates0)
      let legacy := legacyInsertions ds oldAmount
      pure (if legacy.isEmpty then [placeholderIns] else legacy)
    else
      pyIterList ins0
  srcRows.mapM (rowOfIns b)

/-- The base fields `itemToRows` builds when the record is a dict
(each `item.get` with its default). -/
def baseOf (kvs0 : List (String × JVal)) : ShowBase :=
  { podcast_booked := dictGet kvs0 "podcast_booked" (.jStr "Not specified")
    agency := dictGet kvs0 "agency" (.jStr "Not specified")
    advertiser := dictGet kvs0 "advertiser" (.jStr "Not specified")
    type := dictGet kvs0 "type" (.jStr "Not specified")
    draft_required_yn := dictGet kvs0 "draft_required_yn" (.jStr "N")
    impressions := dictGet kvs0 "impressions" (.jStr "Not specified")
    payment_terms := dictGet kvs0 "payment_terms" (.jStr "Not specified")
    requires_pixel_tracker_yn := dictGet kvs0 "requires_pixel_tracker_yn" (.jStr "N")
    notes := dictGet kvs0 "notes" (.jStr "") }

/-- `extract_contract_data` after the model call, with the `json.loads`
outcome abstracted (`none` is a decode error, which the code re-raises
as a ValueError). -/
def extractOnParse (parsed : Option JVal) : Except PyErr (List ShowData) :=
  match parsed with
  | none => .error .valueError
  | some data => do
    let showsV ← itemGet data "shows" (.jArr [])
    let items ← pyIterList showsV
    let rowss ← items.mapM itemToRows
    pure rowss.flatten

/-! ## The redact endpoint (`main.py`) -/

/-- One entry of the in-memory `documents` store. -/
structure DocRecord where
  blocks : List TextBlock
  classification : Option ClassifyResponse
deriving DecidableEq

/-- What `redact_document` does: an HTTP error, or a call to the external
`redact_blocks` collaborator carrying exactly the blocks to redact. -/
inductive RedactOutcome where
  | documentNotFound
  | notClassified
  | showNotFound (selectedShow : String) (available : List String)
  | redacted (blocksToRedact : List TextBlock)
deriving DecidableEq

/-- The keep-set of `redact_document`: IDs assigned to the selected show
plus IDs assigned to GLOBAL. -/
def keepIds (c : ClassifyResponse) (selectedShow : String) : Finset Int :=
  (dictGet c.assignments selectedShow []).toFinset ∪ (dictGet c.assignments "GLOBAL" []).toFinset

/-- `main.redact_document`, returning the outcome together with the
(unchanged) document store. -/
def redactEndpoint (documents : List (String × DocRecord)) (documentId selectedShow : String) :
    RedactOutcome × List (String × DocRecord) :=
  match (documents.find? (fun kv => kv.1 == documentId)).map (·.2) with
  | none => (.documentNotFound, documents)
  | some doc =>
    match doc.classification with
    | none => (.notClassified, documents)
    | some c =>
      if selectedShow ∈ c.shows then
        (.redacted (doc.blocks.filter fun b => decide (b.block_id ∉ keepIds c selectedShow)),
          documents)
      else (.showNotFound selectedShow c.shows, documents)

/-! ## Google Sheets row conversion (`sheets_service.py`) -/

/-- Python `str.upper()` (ASCII portion). -/
def pyUpper (s : String) : String := String.mk (s.data.map Char.toUpper)

/-- `sheets_service._yn_to_bool`: `value.strip().upper() in ("Y", "YES", "TRUE")`. -/
def ynToBool (value : String) : Bool :=
  let u := pyUpper (pyStrip value)
  u == "Y" || u == "YES" || u == "TRUE"

/-- A spreadsheet cell value: the rows mix strings and booleans. -/
inductive Cell where
  | str (s : String)
  | bool (b : Bool)
deriving DecidableEq

/-- `sheets_service._show_data_to_row`. -/
def showDataToRow (sd : ShowData) : List Cell :=
  [.str sd.podcast_booked,
   .str sd.agency,
   .str sd.advertiser,
   .str sd.type,
   .str sd.insertion_date,
   .bool (ynToBool sd.draft_required_yn),
   .str sd.impressions,
   .str sd.amount,
   .str sd.payment_terms,
   .bool (ynToBool sd.requires_pixel_tracker_yn),
   .str sd.notes]

/-! ## Claim-specific concrete inputs -/

/-- Pairwise disjointness of the category lists of an assignments mapping
(keyed form: entries under different keys share no ID). -/
def DisjointCats (asg : List (String × List Int)) : Prop :=
  ∀ k1 l1 k2 l2, (k1, l1) ∈ asg → (k2, l2) ∈ asg → k1 ≠ k2 → ∀ x : Int, x ∈ l1 → x ∉ l2

/-- Ten blocks `0..9` for the concrete redaction scenario. -/
def c3Blocks : List TextBlock :=
  (List.range 10).map fun i => { block_id := (i : Int), page_number := 1, bbox := [], text := "b" }

/-- The reconciled classification of the concrete redaction scenario:
show "A" gets `{1, 3}`, GLOBAL gets `{0}`, GLOBAL_REDACT gets `{5}`,
UNCLASSIFIED the rest. -/
def c3Classification : ClassifyResponse :=
  { shows := ["A"],
    assignments :=
      [("A", [1, 3]), ("GLOBAL", [0]), ("GLOBAL_REDACT", [5]), ("UNCLASSIFIED", [2, 4, 6, 7, 8, 9])] }

/-- A document store holding the scenario document under id "doc". -/
def c3Store : List (String × DocRecord) :=
  [("doc", { blocks := c3Blocks, classification := some c3Classification })]

/-- A concrete extraction record with two date/amount pairs. -/
def c7Item : JVal :=
  .jObj
    [("podcast_booked", .jStr "Show A"),
     ("agency", .jStr "Agency"),
     ("advertiser", .jStr "Brand"),
     ("type", .jStr "podcast"),
     ("insertion_dates",
       .jArr
         [.jObj [("date", .jStr "03/02/2026"), ("amount", .jStr "$6,000")],
          .jObj [("date", .jStr "04/01/2026"), ("amount", .jStr "$7,000")]]),
     ("draft_required_yn", .jStr "Y"),
     ("impressions", .jStr "600,000"),
     ("payment_terms", .jStr "Net 60"),
     ("requires_pixel_tracker_yn", .jStr "N"),
     ("notes", .jStr "")]

/-- A concrete extraction record with no date/amount pairs and no
legacy-format dates. -/
def c7EmptyItem : JVal :=
  .jObj [("podcast_booked", .jStr "Show B"), ("insertion_dates", .jArr [])]

/-! ## Generic helper lemmas -/

theorem bind_ok_iff {α β : Type} {x : Except PyErr α} {f : α → Except PyErr β} {r : β} :
    (x >>= f) = .ok r ↔ ∃ a, x = .ok a ∧ f a = .ok r := by
  cases x <;> simp [Bind.bind, Except.bind]

theorem pyStr?_ok_iff {v : JVal} {s : String} : pyStr? v = .ok s ↔ v = .jStr s := by
  cases v <;> simp [pyStr?]

theorem mapM_ok_forall₂ {α β : Type} {f : α → Except PyErr β} :
    ∀ {l : List α} {ys : List β}, l.mapM f = .ok ys →
      List.Forall₂ (fun a b => f a = .ok b) l ys := by
  intro l
  induction l with
  | nil =>
    intro ys h
    simp only [List.mapM_nil] at h
    cases h
    exact List.Forall₂.nil
  | cons a l ih =>
    intro ys h
    rw [List.mapM_cons] at h
    rw [bind_ok_iff] at h
    obtain ⟨b, hb, h⟩ := h
    rw [bind_ok_iff] at h
    obtain ⟨bs, hbs, h⟩ := h
    simp only [pure, Except.pure, Except.ok.injEq] at h
    cases h
    exact List.Forall₂.cons hb (ih hbs)

/-! ## Lemmas about the reconciliation dictionary operations -/

theorem mem_foldl_union (asg : List (String × List Int)) (init : Finset Int) (x : Int) :
    x ∈ asg.foldl (fun s kv => s ∪ kv.2.toFinset) init ↔
      x ∈ init ∨ ∃ kv ∈ asg, x ∈ kv.2 := by
  induction asg generalizing init with
  | nil => simp
  | cons kv rest ih =>
    rw [List.foldl_cons, ih]
    simp only [Finset.mem_union, List.mem_toFinset, List.mem_cons]
    constructor
    · rintro ((h | h) | ⟨kv2, h2, hx⟩)
      · exact Or.inl h
      · exact Or.inr ⟨kv, Or.inl rfl, h⟩
      · exact Or.inr ⟨kv2, Or.inr h2, hx⟩
    · rintro (h | ⟨kv2, (rfl | h2), hx⟩)
      · exact Or.inl (Or.inl h)
      · exact Or.inl (Or.inr hx)
      · exact Or.inr ⟨kv2, h2, hx⟩

theorem mem_unionIds {asg : List (String × List Int)} {x : Int} :
    x ∈ unionIds asg ↔ ∃ kv ∈ asg, x ∈ kv.2 := by
  simpa using mem_foldl_union asg ∅ x

theorem dictGet_eq_of_mem {α : Type} {asg : List (String × α)} {k : String} {l d : α}
    (hnd : (asg.map Prod.fst).Nodup) (h : (k, l) ∈ asg) : dictGet asg k d = l := by
  induction asg with
  | nil => simp at h
  | cons kv rest ih =>
    rw [List.map_cons, List.nodup_cons] at hnd
    rcases List.mem_cons.mp h with h1 | h1
    · cases h1
      simp [dictGet, List.find?]
    · have hk : k ∈ rest.map Prod.fst := List.mem_map.mpr ⟨(k, l), h1, rfl⟩
      have hne : (kv.1 == k) = false := by
        rw [beq_eq_false_iff_ne]
        intro he
        exact hnd.1 (he ▸ hk)
      simp only [dictGet, List.find?, hne]
      exact ih hnd.2 h1

theorem dictGet_eq_of_not_mem {α : Type} {asg : List (String × α)} {k : String} {d : α}
    (h : k ∉ asg.map Prod.fst) : dictGet asg k d = d := by
  have : asg.find? (fun kv => kv.1 == k) = none := by
    rw [List.find?_eq_none]
    intro kv hkv
    simp only [beq_eq_false_iff_ne, ne_eq, beq_iff_eq]
    intro he
    exact h (List.mem_map.mpr ⟨kv, hkv, he⟩)
  simp [dictGet, this]

theorem any_key_eq_true {α : Type} {asg : List (String × α)} {k : String}
    (h : k ∈ asg.map Prod.fst) : asg.any (fun kv => kv.1 == k) = true := by
  obtain ⟨kv, hkv, hfst⟩ := List.mem_map.mp h
  exact List.any_eq_true.mpr ⟨kv, hkv, by simp [hfst]⟩

theorem any_key_eq_false {α : Type} {asg : List (String × α)} {k : String}
    (h : k ∉ asg.map Prod.fst) : asg.any (fun kv => kv.1 == k) = false := by
  rw [Bool.eq_false_iff]
  intro hc
  obtain ⟨kv, hkv, he⟩ := List.any_eq_true.mp hc
  rw [beq_iff_eq] at he
  exact h (List.mem_map.mpr ⟨kv, hkv, he⟩)

theorem unionIds_dictSetDefault (asg : List (String × List Int)) (k : String) :
    unionIds (dictSetDefault asg k []) = unionIds asg := by
  unfold dictSetDefault
  split
  · rfl
  · ext x
    rw [mem_unionIds, mem_unionIds]
    constructor
    · rintro ⟨kv, hkv, hx⟩
      rcases List.mem_append.mp hkv with h | h
      · exact ⟨kv, h, hx⟩
      · simp at h
        rw [h] at hx
        simp at hx
    · rintro ⟨kv, hkv, hx⟩
      exact ⟨kv, List.mem_append_left _ hkv, hx⟩

theorem unionIds_filterInter (asg : List (String × List Int)) (S : Finset Int) :
    unionIds (asg.map fun kv => (kv.1, kv.2.filter (fun i => decide (i ∈ S)))) =
      unionIds asg ∩ S := by
  ext x
  rw [Finset.mem_inter, mem_unionIds, mem_unionIds]
  constructor
  · rintro ⟨kv, hkv, hx⟩
    obtain ⟨kv0, hkv0, rfl⟩ := List.mem_map.mp hkv
    simp only [List.mem_filter, decide_eq_true_eq] at hx
    exact ⟨⟨kv0, hkv0, hx.1⟩, hx.2⟩
  · rintro ⟨⟨kv0, hkv0, hx⟩, hS⟩
    refine ⟨(kv0.1, kv0.2.filter (fun i => decide (i ∈ S))), List.mem_map.mpr ⟨kv0, hkv0, rfl⟩, ?_⟩
    simp only [List.mem_filter, decide_eq_true_eq]
    exact ⟨hx, hS⟩

theorem unionIds_dictSet_append (asg : List (String × List Int)) (k : String) (m : List Int)
    (hnd : (asg.map Prod.fst).Nodup) :
    unionIds (dictSet asg k (dictGet asg k [] ++ m)) = unionIds asg ∪ m.toFinset := by
  by_cases hk : k ∈ asg.map Prod.fst
  · obtain ⟨⟨k0, l0⟩, hmem, hfst⟩ := List.mem_map.mp hk
    simp only at hfst
    rw [hfst] at hmem
    have hget : dictGet asg k ([] : List Int) = l0 := dictGet_eq_of_mem hnd hmem
    rw [dictSet, if_pos (any_key_eq_true hk), hget]
    ext x
    rw [Finset.mem_union, mem_unionIds, mem_unionIds, List.mem_toFinset]
    constructor
    · rintro ⟨kv, hkv, hx⟩
      obtain ⟨kv0, hkv0, rfl⟩ := List.mem_map.mp hkv
      by_cases hkk : kv0.1 = k
      · rw [if_pos (by simp [hkk])] at hx
        simp only at hx
        rcases List.mem_append.mp hx with h | h
        · exact Or.inl ⟨(k, l0), hmem, h⟩
        · exact Or.inr h
      · rw [if_neg (by simp [hkk])] at hx
        exact Or.inl ⟨kv0, hkv0, hx⟩
    · rintro (⟨kv0, hkv0, hx⟩ | hm)
      · obtain ⟨kk, vv⟩ := kv0
        by_cases hkk : kk = k
        · subst hkk
          have hv : vv = l0 := by
            have h2 : dictGet asg kk ([] : List Int) = vv := dictGet_eq_of_mem hnd hkv0
            rw [← h2, hget]
          refine ⟨(kk, l0 ++ m), List.mem_map.mpr ⟨(kk, vv), hkv0, by rw [if_pos (by simp)]⟩, ?_⟩
          exact List.mem_append_left _ (hv ▸ hx)
        · exact ⟨(kk, vv), List.mem_map.mpr ⟨(kk, vv), hkv0, by rw [if_neg (by simp [hkk])]⟩, hx⟩
      · refine ⟨(k, l0 ++ m), List.mem_map.mpr ⟨(k, l0), hmem, by rw [if_pos (by simp)]⟩, ?_⟩
        exact List.mem_append_right _ hm
  · rw [dictSet, if_neg (by rw [any_key_eq_false hk]; simp), dictGet_eq_of_not_mem hk]
    ext x
    rw [Finset.mem_union, mem_unionIds, mem_unionIds, List.mem_toFinset]
    constructor
    · rintro ⟨kv, hkv, hx⟩
      rcases List.mem_append.mp hkv with h | h
      · exact Or.inl ⟨kv, h, hx⟩
      · simp only [List.mem_singleton] at h
        rw [h] at hx
        simp only [List.nil_append] at hx
        exact Or.inr hx
    · rintro (⟨kv, hkv, hx⟩ | hm)
      · exact ⟨kv, List.mem_append_left _ hkv, hx⟩
      · exact ⟨(k, [] ++ m), List.mem_append_right _ (by simp), by simpa using hm⟩

theorem unionIds_reconcile (coerced : List (String × List Int)) (S : Finset Int)
    (hnd : (coerced.map Prod.fst).Nodup) :
    unionIds (reconcileAssignments coerced S) = S := by
  simp only [reconcileAssignments]
  rw [unionIds_dictSetDefault, unionIds_dictSetDefault, unionIds_dictSetDefault]
  split_ifs with he hm hm
  · exact Finset.Subset.antisymm (Finset.sdiff_eq_empty_iff_subset.mp he)
      (Finset.sdiff_eq_empty_iff_subset.mp hm)
  · rw [unionIds_dictSet_append _ _ _ hnd, Finset.sort_toFinset,
      Finset.union_sdiff_self_eq_union,
      Finset.union_eq_right.mpr (Finset.sdiff_eq_empty_iff_subset.mp he)]
  · rw [unionIds_filterInter,
      Finset.inter_eq_right.mpr (Finset.sdiff_eq_empty_iff_subset.mp hm)]
  · rw [unionIds_filterInter, unionIds_dictSet_append _ _ _ hnd, Finset.sort_toFinset,
      Finset.union_sdiff_self_eq_union, Finset.union_inter_cancel_right]

theorem validateClassification_ok_iff {showsV : JVal} {akvs : List (String × JVal)}
    {S : Finset Int} {r : ClassifyResponse} :
    validateClassification (.jObj [("shows", showsV), ("assignments", .jObj akvs)]) S = .ok r ↔
      ∃ coerced shows, coerceAssignments akvs = .ok coerced ∧ toShows showsV = .ok shows ∧
        r = ⟨shows, reconcileAssignments coerced S⟩ := by
  have hkey : validateClassification (.jObj [("shows", showsV), ("assignments", .jObj akvs)]) S =
      (coerceAssignments akvs >>= fun coerced =>
        toShows showsV >>= fun shows =>
          pure { shows := shows, assignments := reconcileAssignments coerced S }) := rfl
  rw [hkey]
  constructor
  · intro h
    rw [bind_ok_iff] at h
    obtain ⟨coerced, hc, h⟩ := h
    rw [bind_ok_iff] at h
    obtain ⟨shows, hs, h⟩ := h
    simp only [pure, Except.pure, Except.ok.injEq] at h
    exact ⟨coerced, shows, hc, hs, h.symm⟩
  · rintro ⟨coerced, shows, hc, hs, rfl⟩
    rw [hc]
    simp [Bind.bind, Except.bind, hs, pure, Except.pure]

theorem coerceAssignments_keys {akvs : List (String × JVal)}
    {coerced : List (String × List Int)} (h : coerceAssignments akvs = .ok coerced) :
    coerced.map Prod.fst = akvs.map Prod.fst := by
  have hf := mapM_ok_forall₂ h
  clear h
  induction hf with
  | nil => rfl
  | cons ha htail ih =>
    rw [List.map_cons, List.map_cons, ih]
    rw [bind_ok_iff] at ha
    obtain ⟨elems, _, ha⟩ := ha
    rw [bind_ok_iff] at ha
    obtain ⟨ints, _, ha⟩ := ha
    simp only [pure, Except.pure, Except.ok.injEq] at ha
    rw [← ha]

/-- C1: for every full block-ID set `S` and every raw assignment mapping with
integer-coercible list elements (expressed as: `_validate_classification`
returns successfully), the union of all category lists of the result equals
exactly `S` — missing IDs are appended to UNCLASSIFIED and extra IDs are
filtered from every category. -/
theorem c1_partition_completeness (showsV : JVal) (akvs : List (String × JVal))
    (S : Finset Int) (r : ClassifyResponse)
    (hnd : (akvs.map Prod.fst).Nodup)
    (h : validateClassification (.jObj [("shows", showsV), ("assignments", .jObj akvs)]) S = .ok r) :
    unionIds r.assignments = S := by
  obtain ⟨coerced, shows, hc, hs, rfl⟩ := validateClassification_ok_iff.mp h
  exact unionIds_reconcile _ _ ((coerceAssignments_keys hc) ▸ hnd)

/-- Witness for C1 at a concrete input. -/
theorem c1_partition_completeness_witness :
    unionIds [("A", [0, 1]), ("GLOBAL", []), ("GLOBAL_REDACT", []), ("UNCLASSIFIED", [])] =
      ({0, 1} : Finset Int) :=
  c1_partition_completeness (.jArr [.jStr "A"]) [("A", .jArr [.jNum 0, .jNum 1])] {0, 1}
    ⟨["A"], [("A", [0, 1]), ("GLOBAL", []), ("GLOBAL_REDACT", []), ("UNCLASSIFIED", [])]⟩
    (by decide) (by decide)

/-! ## Disjointness preservation through reconciliation (claim C2) -/

theorem disjointCats_filterMap {asg : List (String × List Int)} {S : Finset Int}
    (hd : DisjointCats asg) :
    DisjointCats (asg.map fun kv => (kv.1, kv.2.filter (fun i => decide (i ∈ S)))) := by
  intro k1 l1 k2 l2 h1 h2 hne x hx1 hx2
  obtain ⟨⟨a1, b1⟩, ha1, he1⟩ := List.mem_map.mp h1
  obtain ⟨⟨a2, b2⟩, ha2, he2⟩ := List.mem_map.mp h2
  simp only [Prod.mk.injEq] at he1 he2
  obtain ⟨hk1, hl1⟩ := he1
  obtain ⟨hk2, hl2⟩ := he2
  subst hk1
  subst hk2
  refine hd a1 b1 a2 b2 ha1 ha2 hne x ?_ ?_
  · rw [← hl1] at hx1
    exact (List.mem_filter.mp hx1).1
  · rw [← hl2] at hx2
    exact (List.mem_filter.mp hx2).1

theorem disjointCats_dictSetDefault {asg : List (String × List Int)} {k : String}
    (hd : DisjointCats asg) : DisjointCats (dictSetDefault asg k ([] : List Int)) := by
  unfold dictSetDefault
  split
  · exact hd
  · intro k1 l1 k2 l2 h1 h2 hne x hx1 hx2
    rcases List.mem_append.mp h1 with h1a | h1a
    · rcases List.mem_append.mp h2 with h2a | h2a
      · exact hd _ _ _ _ h1a h2a hne x hx1 hx2
      · simp only [List.mem_singleton, Prod.mk.injEq] at h2a
        rw [h2a.2] at hx2
        simp at hx2
    · simp only [List.mem_singleton, Prod.mk.injEq] at h1a
      rw [h1a.2] at hx1
      simp at hx1

theorem disjointCats_dictSet_missing {asg : List (String × List Int)} {k : String} {m : List Int}
    (hnd : (asg.map Prod.fst).Nodup) (hd : DisjointCats asg)
    (hm : ∀ x ∈ m, x ∉ unionIds asg) :
    DisjointCats (dictSet asg k (dictGet asg k [] ++ m)) := by
  unfold dictSet
  split
  case isTrue hany =>
    obtain ⟨⟨ak, av⟩, hamem, habeq⟩ := List.any_eq_true.mp hany
    rw [beq_iff_eq] at habeq
    simp only at habeq
    rw [habeq] at hamem
    have hget : dictGet asg k ([] : List Int) = av := dictGet_eq_of_mem hnd hamem
    intro k1 l1 k2 l2 h1 h2 hne x hx1 hx2
    obtain ⟨⟨a1, b1⟩, ha1, he1⟩ := List.mem_map.mp h1
    obtain ⟨⟨a2, b2⟩, ha2, he2⟩ := List.mem_map.mp h2
    by_cases c1 : a1 = k <;> by_cases c2 : a2 = k
    · rw [if_pos (by simp [c1]), Prod.mk.injEq] at he1
      rw [if_pos (by simp [c2]), Prod.mk.injEq] at he2
      rw [← he1.1, ← he2.1] at hne
      exact hne rfl
    · rw [if_pos (by simp [c1]), Prod.mk.injEq] at he1
      rw [if_neg (by simp [c2]), Prod.mk.injEq] at he2
      rw [← he1.2, hget] at hx1
      rw [← he2.2] at hx2
      rcases List.mem_append.mp hx1 with hxa | hxm
      · refine hd k av a2 b2 hamem ha2 ?_ x hxa hx2
        exact fun hkk => c2 hkk.symm
      · exact hm x hxm (mem_unionIds.mpr ⟨(a2, b2), ha2, hx2⟩)
    · rw [if_neg (by simp [c1]), Prod.mk.injEq] at he1
      rw [if_pos (by simp [c2]), Prod.mk.injEq] at he2
      rw [← he2.2, hget] at hx2
      rw [← he1.2] at hx1
      rcases List.mem_append.mp hx2 with hxa | hxm
      · exact hd a1 b1 k av ha1 hamem c1 x hx1 hxa
      · exact hm x hxm (mem_unionIds.mpr ⟨(a1, b1), ha1, hx1⟩)
    · rw [if_neg (by simp [c1]), Prod.mk.injEq] at he1
      rw [if_neg (by simp [c2]), Prod.mk.injEq] at he2
      rw [← he1.2] at hx1
      rw [← he2.2] at hx2
      rw [← he1.1, ← he2.1] at hne
      exact hd a1 b1 a2 b2 ha1 ha2 hne x hx1 hx2
  case isFalse hany =>
    have hknot : k ∉ asg.map Prod.fst := by
      intro hc
      rw [any_key_eq_true hc] at hany
      exact hany rfl
    rw [dictGet_eq_of_not_mem hknot]
    intro k1 l1 k2 l2 h1 h2 hne x hx1 hx2
    rcases List.mem_append.mp h1 with h1a | h1a <;> rcases List.mem_append.mp h2 with h2a | h2a
    · exact hd _ _ _ _ h1a h2a hne x hx1 hx2
    · simp only [List.mem_singleton, Prod.mk.injEq] at h2a
      rw [h2a.2] at hx2
      simp only [List.nil_append] at hx2
      exact hm x hx2 (mem_unionIds.mpr ⟨(k1, l1), h1a, hx1⟩)
    · simp only [List.mem_singleton, Prod.mk.injEq] at h1a
      rw [h1a.2] at hx1
      simp only [List.nil_append] at hx1
      exact hm x hx1 (mem_unionIds.mpr ⟨(k2, l2), h2a, hx2⟩)
    · simp only [List.mem_singleton, Prod.mk.injEq] at h1a h2a
      exact hne (h1a.1.trans h2a.1.symm)

theorem disjointCats_reconcile (coerced : List (String × List Int)) (S : Finset Int)
    (hnd : (coerced.map Prod.fst).Nodup) (hd : DisjointCats coerced) :
    DisjointCats (reconcileAssignments coerced S) := by
  simp only [reconcileAssignments]
  refine disjointCats_dictSetDefault (disjointCats_dictSetDefault (disjointCats_dictSetDefault ?_))
  have hmiss : ∀ x ∈ (S \ unionIds coerced).sort (· ≤ ·), x ∉ unionIds coerced := by
    intro x hx
    exact (Finset.mem_sdiff.mp ((Finset.mem_sort _).mp hx)).2
  split_ifs with he hm hm
  · exact hd
  · exact disjointCats_dictSet_missing hnd hd hmiss
  · exact disjointCats_filterMap hd
  · exact disjointCats_filterMap (disjointCats_dictSet_missing hnd hd hmiss)

/-- C2 counterexample: an ID the raw mapping lists under two categories stays
in both after `_validate_classification` — the reconciler never deduplicates
across categories. -/
theorem c2_counterexample :
    validateClassification
        (.jObj [("shows", .jArr []),
          ("assignments", .jObj [("A", .jArr [.jNum 0]), ("B", .jArr [.jNum 0])])])
        ({0} : Finset Int) =
      .ok ⟨[], [("A", [0]), ("B", [0]), ("GLOBAL", []), ("GLOBAL_REDACT", []), ("UNCLASSIFIED", [])]⟩ ∧
    ("A", [(0 : Int)]) ∈
      ([("A", [0]), ("B", [0]), ("GLOBAL", []), ("GLOBAL_REDACT", []), ("UNCLASSIFIED", [])] :
        List (String × List Int)) ∧
    ("B", [(0 : Int)]) ∈
      ([("A", [0]), ("B", [0]), ("GLOBAL", []), ("GLOBAL_REDACT", []), ("UNCLASSIFIED", [])] :
        List (String × List Int)) ∧
    (0 : Int) ∈ [(0 : Int)] ∧ "A" ≠ "B" := by
  decide

/-- C2 (amended): provided the raw mapping's coerced category lists are
pairwise disjoint (the reconciler does not deduplicate an ID listed under
several categories), after `_validate_classification` every block ID of the
full set appears in exactly one category's list. -/
theorem c2_partition_exclusivity_amended (showsV : JVal) (akvs : List (String × JVal))
    (coerced : List (String × List Int)) (S : Finset Int) (r : ClassifyResponse)
    (hnd : (akvs.map Prod.fst).Nodup)
    (hc : coerceAssignments akvs = .ok coerced)
    (hdisj : DisjointCats coerced)
    (h : validateClassification (.jObj [("shows", showsV), ("assignments", .jObj akvs)]) S = .ok r) :
    ∀ x ∈ S, ∃! k, ∃ l, (k, l) ∈ r.assignments ∧ x ∈ l := by
  obtain ⟨coerced2, shows, hc2, hs, rfl⟩ := validateClassification_ok_iff.mp h
  rw [hc] at hc2
  injection hc2 with hc2
  subst hc2
  have hndc : (coerced.map Prod.fst).Nodup := (coerceAssignments_keys hc) ▸ hnd
  have hu := unionIds_reconcile coerced S hndc
  have hdr := disjointCats_reconcile coerced S hndc hdisj
  intro x hx
  rw [← hu] at hx
  obtain ⟨kv, hkv, hxkv⟩ := mem_unionIds.mp hx
  refine ⟨kv.1, ⟨kv.2, by simpa using hkv, hxkv⟩, ?_⟩
  rintro k2 ⟨l2, hl2, hxl2⟩
  by_contra hne2
  exact hdr k2 l2 kv.1 kv.2 hl2 (by simpa using hkv) hne2 x hxl2 hxkv

/-- Witness for the amended C2 at a concrete input and block ID 0. -/
theorem c2_partition_exclusivity_amended_witness :
    ∃! k, ∃ l,
      (k, l) ∈ ([("A", [0]), ("B", [1]), ("GLOBAL", []), ("GLOBAL_REDACT", []), ("UNCLASSIFIED", [])] :
        List (String × List Int)) ∧ (0 : Int) ∈ l :=
  c2_partition_exclusivity_amended (.jArr [.jStr "A", .jStr "B"])
    [("A", .jArr [.jNum 0]), ("B", .jArr [.jNum 1])]
    [("A", [0]), ("B", [1])] {0, 1}
    ⟨["A", "B"], [("A", [0]), ("B", [1]), ("GLOBAL", []), ("GLOBAL_REDACT", []), ("UNCLASSIFIED", [])]⟩
    (by decide) (by decide)
    (by
      intro k1 l1 k2 l2 h1 h2 hne x hx1 hx2
      simp only [List.mem_cons, List.mem_singleton, List.not_mem_nil, or_false,
        Prod.mk.injEq] at h1 h2
      rcases h1 with ⟨rfl, rfl⟩ | ⟨rfl, rfl⟩ <;> rcases h2 with ⟨rfl, rfl⟩ | ⟨rfl, rfl⟩ <;>
        simp_all)
    (by decide) 0 (by decide)

/-- C3: for any document and classification, the redact endpoint keeps
exactly the IDs assigned to the selected show union the IDs assigned to
GLOBAL and hands every other block of the document to the redaction
collaborator; in the concrete scenario (blocks 0..9, A = 1,3, GLOBAL = 0,
GLOBAL_REDACT = 5) the keep-set is 0,1,3 and the redact-set 2,4,5,6,7,8,9. -/
theorem c3_redaction_keep_set :
    (∀ (documents : List (String × DocRecord)) (documentId selectedShow : String)
        (doc : DocRecord) (c : ClassifyResponse),
        (documents.find? (fun kv => kv.1 == documentId)).map (·.2) = some doc →
        doc.classification = some c →
        selectedShow ∈ c.shows →
        keepIds c selectedShow =
          (dictGet c.assignments selectedShow []).toFinset ∪
            (dictGet c.assignments "GLOBAL" []).toFinset ∧
        ∃ redacted,
          redactEndpoint documents documentId selectedShow = (.redacted redacted, documents) ∧
          ∀ b, b ∈ redacted ↔ b ∈ doc.blocks ∧ b.block_id ∉ keepIds c selectedShow) ∧
    keepIds c3Classification "A" = ({0, 1, 3} : Finset Int) ∧
    (redactEndpoint c3Store "doc" "A").1 =
      .redacted (c3Blocks.filter fun b => decide (b.block_id ∉ keepIds c3Classification "A")) ∧
    (c3Blocks.filter fun b => decide (b.block_id ∉ keepIds c3Classification "A")).map
      (·.block_id) = [2, 4, 5, 6, 7, 8, 9] := by
  refine ⟨?_, by decide, by decide, by decide⟩
  intro documents documentId selectedShow doc c hdoc hc hsel
  refine ⟨rfl, ?_⟩
  have hred : redactEndpoint documents documentId selectedShow =
      (.redacted (doc.blocks.filter fun b => decide (b.block_id ∉ keepIds c selectedShow)),
        documents) := by
    simp only [redactEndpoint, hdoc, hc]
    rw [if_pos hsel]
  refine ⟨doc.blocks.filter fun b => decide (b.block_id ∉ keepIds c selectedShow), hred, ?_⟩
  intro b
  simp [List.mem_filter]

/-- Witness for C3 at the concrete scenario store. -/
theorem c3_redaction_keep_set_witness :
    keepIds c3Classification "A" =
      (dictGet c3Classification.assignments "A" []).toFinset ∪
        (dictGet c3Classification.assignments "GLOBAL" []).toFinset ∧
    ∃ redacted,
      redactEndpoint c3Store "doc" "A" = (.redacted redacted, c3Store) ∧
      ∀ b, b ∈ redacted ↔ b ∈ c3Blocks ∧ b.block_id ∉ keepIds c3Classification "A" :=
  c3_redaction_keep_set.1 c3Store "doc" "A"
    { blocks := c3Blocks, classification := some c3Classification } c3Classification
    rfl rfl (by decide)

/-- C8: requesting redaction for a show absent from the classification's
shows list fails with the show-not-found error, performs no redaction and
leaves the document store unchanged. -/
theorem c8_unknown_show_error (documents : List (String × DocRecord))
    (documentId selectedShow : String) (doc : DocRecord) (c : ClassifyResponse)
    (hdoc : (documents.find? (fun kv => kv.1 == documentId)).map (·.2) = some doc)
    (hc : doc.classification = some c)
    (hnot : selectedShow ∉ c.shows) :
    redactEndpoint documents documentId selectedShow =
      (.showNotFound selectedShow c.shows, documents) := by
  simp only [redactEndpoint, hdoc, hc]
  rw [if_neg hnot]

/-- Witness for C8 at a concrete store. -/
theorem c8_unknown_show_error_witness :
    redactEndpoint [("d", { blocks := [], classification := some ⟨["A"], [("A", [])]⟩ })] "d" "B" =
      (.showNotFound "B" ["A"],
        [("d", { blocks := [], classification := some ⟨["A"], [("A", [])]⟩ })]) :=
  c8_unknown_show_error _ "d" "B"
    { blocks := [], classification := some ⟨["A"], [("A", [])]⟩ } ⟨["A"], [("A", [])]⟩
    rfl rfl (by decide)

/-- C6: when the classification response fails JSON parsing the endpoint
returns (does not raise) the fallback with an empty shows list and every
valid block ID under UNCLASSIFIED in ascending order, while an extraction
response that fails JSON parsing raises an error. -/
theorem c6_unparseable_response_policy (S : Finset Int) :
    classifyOnParse none S =
      .ok ⟨[], [("GLOBAL", []), ("UNCLASSIFIED", S.sort (· ≤ ·))]⟩ ∧
    (S.sort (· ≤ ·)).Sorted (· ≤ ·) ∧
    (∀ x : Int, x ∈ S.sort (· ≤ ·) ↔ x ∈ S) ∧
    extractOnParse none = .error .valueError :=
  ⟨rfl, Finset.sort_sorted _ _, fun _ => Finset.mem_sort _, rfl⟩

/-- C10: the spreadsheet row holds boolean cells (not "Y"/"N" strings) in
the draft-required and pixel-tracker columns, true exactly when the field
stripped and upper-cased is Y, YES or TRUE; the other nine columns pass the
string fields through in the fixed 11-column order. -/
theorem c10_flag_columns_are_booleans (sd : ShowData) :
    showDataToRow sd =
      [.str sd.podcast_booked, .str sd.agency, .str sd.advertiser, .str sd.type,
       .str sd.insertion_date, .bool (ynToBool sd.draft_required_yn), .str sd.impressions,
       .str sd.amount, .str sd.payment_terms, .bool (ynToBool sd.requires_pixel_tracker_yn),
       .str sd.notes] ∧
    ∀ v : String, ynToBool v = true ↔
      (pyUpper (pyStrip v) = "Y" ∨ pyUpper (pyStrip v) = "YES" ∨ pyUpper (pyStrip v) = "TRUE") := by
  refine ⟨rfl, ?_⟩
  intro v
  simp [ynToBool, or_assoc]

theorem stripChars_eq_nil_of_all_space {l : List Char} (h : l.all isPySpace = true) :
    stripChars l = [] := by
  have h1 : l.dropWhile isPySpace = [] := by
    rw [List.dropWhile_eq_nil_iff]
    intro x hx
    exact List.all_eq_true.mp h x hx
  simp [stripChars, h1]

/-- C9: an empty or whitespace-only model response is mapped to the empty
JSON object text by `_strip_json_from_response`, so it parses and flows
through `_validate_classification` — giving shows = [], every block ID in
UNCLASSIFIED in ascending order, and all three reserved keys present —
instead of through the decode-error fallback, whose result has only the
GLOBAL and UNCLASSIFIED keys. -/
theorem c9_empty_response_flow (raw : String) (S : Finset Int)
    (hws : raw.data.all isPySpace = true) :
    stripJsonFromResponse raw = "\x7b\x7d" ∧
    (∃ asg, classifyOnParse (some (.jObj [])) S = .ok ⟨[], asg⟩ ∧
      dictGet asg "UNCLASSIFIED" [] = S.sort (· ≤ ·) ∧
      (S.sort (· ≤ ·)).Sorted (· ≤ ·) ∧
      "GLOBAL" ∈ asg.map Prod.fst ∧ "GLOBAL_REDACT" ∈ asg.map Prod.fst ∧
      "UNCLASSIFIED" ∈ asg.map Prod.fst) ∧
    classifyOnParse none S = .ok ⟨[], [("GLOBAL", []), ("UNCLASSIFIED", S.sort (· ≤ ·))]⟩ := by
  have hstrip : stripChars raw.data = [] := stripChars_eq_nil_of_all_space hws
  refine ⟨?_, ?_, rfl⟩
  · unfold stripJsonFromResponse stripJsonCore
    rw [hstrip]
    simp
  · have h2 : classifyOnParse (some (.jObj [])) S = .ok ⟨[], reconcileAssignments [] S⟩ := rfl
    by_cases hS : S = ∅
    · subst hS
      exact ⟨[("GLOBAL", []), ("GLOBAL_REDACT", []), ("UNCLASSIFIED", [])], by decide,
        by rw [Finset.sort_empty]; decide, by rw [Finset.sort_empty]; exact List.sorted_nil,
        by decide, by decide, by decide⟩
    · have hredc : reconcileAssignments [] S =
          [("UNCLASSIFIED", S.sort (· ≤ ·)), ("GLOBAL", []), ("GLOBAL_REDACT", [])] := by
        simp only [reconcileAssignments, unionIds, List.foldl_nil, Finset.sdiff_empty,
          Finset.empty_sdiff, if_pos rfl, if_neg hS]
        simp [dictSet, dictSetDefault, dictGet]
      rw [h2, hredc]
      exact ⟨[("UNCLASSIFIED", S.sort (· ≤ ·)), ("GLOBAL", []), ("GLOBAL_REDACT", [])], rfl,
        rfl, Finset.sort_sorted _ _, by simp, by simp, by simp⟩

/-- Witness for C9 on the empty response and block-ID set 0, 1. -/
theorem c9_empty_response_flow_witness :
    stripJsonFromResponse "" = "\x7b\x7d" ∧
    (∃ asg, classifyOnParse (some (.jObj [])) ({0, 1} : Finset Int) = .ok ⟨[], asg⟩ ∧
      dictGet asg "UNCLASSIFIED" [] = ({0, 1} : Finset Int).sort (· ≤ ·) ∧
      (({0, 1} : Finset Int).sort (· ≤ ·)).Sorted (· ≤ ·) ∧
      "GLOBAL" ∈ asg.map Prod.fst ∧ "GLOBAL_REDACT" ∈ asg.map Prod.fst ∧
      "UNCLASSIFIED" ∈ asg.map Prod.fst) ∧
    classifyOnParse none ({0, 1} : Finset Int) =
      .ok ⟨[], [("GLOBAL", []), ("UNCLASSIFIED", ({0, 1} : Finset Int).sort (· ≤ ·))]⟩ :=
  c9_empty_response_flow "" {0, 1} (by decide)

/-! ## Error policy of `_validate_classification` (claim C4) -/

theorem ok_bind {α β : Type} (a : α) (f : α → Except PyErr β) :
    (Except.ok a >>= f) = f a := rfl

theorem error_bind {α β : Type} (e : PyErr) (f : α → Except PyErr β) :
    ((Except.error e : Except PyErr α) >>= f) = .error e := rfl

theorem pyInt_ok_or (v : JVal) :
    (∃ n, pyInt v = .ok n) ∨ pyInt v = .error .coercionError := by
  cases v with
  | jBool b => exact Or.inl ⟨if b then 1 else 0, rfl⟩
  | jNum n => exact Or.inl ⟨n, rfl⟩
  | jStr s =>
    cases h : parseIntStr s with
    | some n => exact Or.inl ⟨n, by simp [pyInt, h]⟩
    | none => exact Or.inr (by simp [pyInt, h])
  | jNull => exact Or.inr rfl
  | jArr xs => exact Or.inr rfl
  | jObj kvs => exact Or.inr rfl

theorem pure_ok {α : Type} (a : α) : (pure a : Except PyErr α) = .ok a := rfl

theorem pyIterList_arr (xs : List JVal) : pyIterList (.jArr xs) = .ok xs := rfl

theorem mapM_pyInt_ok_or (l : List JVal) :
    (∃ ns, l.mapM pyInt = .ok ns) ∨ l.mapM pyInt = .error .coercionError := by
  induction l with
  | nil => exact Or.inl ⟨[], rfl⟩
  | cons a l ih =>
    rcases pyInt_ok_or a with ⟨n, hn⟩ | hn
    · rcases ih with ⟨ns, hns⟩ | hns
      · refine Or.inl ⟨n :: ns, ?_⟩
        rw [List.mapM_cons, hn, ok_bind, hns, ok_bind]
        rfl
      · refine Or.inr ?_
        rw [List.mapM_cons, hn, ok_bind, hns, error_bind]
    · exact Or.inr (by rw [List.mapM_cons, hn, error_bind])

theorem coerceAssignments_cons (kv : String × JVal) (rest : List (String × JVal)) :
    coerceAssignments (kv :: rest) =
      pyIterList kv.2 >>= fun elems =>
        elems.mapM pyInt >>= fun ints =>
          coerceAssignments rest >>= fun c => pure ((kv.1, ints) :: c) := by
  unfold coerceAssignments
  rw [List.mapM_cons]
  cases pyIterList kv.2 with
  | error e => simp only [error_bind]
  | ok elems =>
    simp only [ok_bind]
    cases elems.mapM pyInt with
    | error e => simp only [error_bind]
    | ok ints => simp only [ok_bind, pure_ok]

theorem coerceAssignments_ok_or {akvs : List (String × JVal)}
    (h : ∀ kv ∈ akvs, ∃ xs, kv.2 = JVal.jArr xs) :
    (∃ c, coerceAssignments akvs = .ok c) ∨ coerceAssignments akvs = .error .coercionError := by
  induction akvs with
  | nil => exact Or.inl ⟨[], rfl⟩
  | cons kv rest ih =>
    obtain ⟨xs, hxs⟩ := h kv (List.mem_cons_self _ _)
    have hrest := ih (fun kv2 h2 => h kv2 (List.mem_cons_of_mem _ h2))
    rw [coerceAssignments_cons, hxs, pyIterList_arr, ok_bind]
    rcases mapM_pyInt_ok_or xs with ⟨ns, hns⟩ | hns
    · rw [hns, ok_bind]
      rcases hrest with ⟨c, hc⟩ | hc
      · rw [hc, ok_bind, pure_ok]
        exact Or.inl ⟨(kv.1, ns) :: c, rfl⟩
      · rw [hc, error_bind]
        exact Or.inr rfl
    · rw [hns, error_bind]
      exact Or.inr rfl

theorem toShows_arr (xs : List JVal) : toShows (.jArr xs) = xs.mapM showStr := rfl

theorem toShows_ok {xs : List JVal} (h : ∀ v ∈ xs, ∃ s, v = JVal.jStr s) :
    ∃ l, toShows (.jArr xs) = .ok l := by
  induction xs with
  | nil => exact ⟨[], rfl⟩
  | cons v rest ih =>
    obtain ⟨s, hs⟩ := h v (List.mem_cons_self _ _)
    obtain ⟨l, hl⟩ := ih (fun v2 h2 => h v2 (List.mem_cons_of_mem _ h2))
    refine ⟨s :: l, ?_⟩
    rw [toShows_arr] at hl ⊢
    rw [List.mapM_cons, hs]
    rw [show showStr (JVal.jStr s) = Except.ok s from rfl, ok_bind, hl, ok_bind]
    rfl

/-- C4 counterexample: `_validate_classification` on a JSON value that is
not an object raises AttributeError at the very first `.get`, a failure
that is not an integer-coercion parse error — so the function does not
return a usable result on arbitrary malformed input. -/
theorem c4_counterexample :
    validateClassification (.jArr []) (∅ : Finset Int) = .error .attributeError ∧
    PyErr.attributeError ≠ PyErr.coercionError :=
  ⟨rfl, by decide⟩

/-- C4 (amended): when the raw classification is an object whose `shows`
entry is an array of strings and whose `assignments` entry is an object
with array values, `_validate_classification` either returns a usable
result or fails with an integer-coercion error — coercion failure is then
the only failure mode.  On other shapes (a non-object input, a non-array
`shows`, a non-iterable category value) it can raise AttributeError,
ValidationError or TypeError as well. -/
theorem c4_reconciliation_error_policy_amended (showsV : JVal) (akvs : List (String × JVal))
    (S : Finset Int)
    (hshows : ∃ sxs, showsV = JVal.jArr sxs ∧ ∀ v ∈ sxs, ∃ s, v = JVal.jStr s)
    (harrs : ∀ kv ∈ akvs, ∃ xs, kv.2 = JVal.jArr xs) :
    (∃ r, validateClassification (.jObj [("shows", showsV), ("assignments", .jObj akvs)]) S =
        .ok r) ∨
    validateClassification (.jObj [("shows", showsV), ("assignments", .jObj akvs)]) S =
      .error .coercionError := by
  obtain ⟨sxs, rfl, hstr⟩ := hshows
  have hkey : validateClassification
      (.jObj [("shows", .jArr sxs), ("assignments", .jObj akvs)]) S =
      (coerceAssignments akvs >>= fun coerced =>
        toShows (.jArr sxs) >>= fun shows =>
          pure { shows := shows, assignments := reconcileAssignments coerced S }) := rfl
  rw [hkey]
  rcases coerceAssignments_ok_or harrs with ⟨c, hc⟩ | hc
  · obtain ⟨l, hl⟩ := toShows_ok hstr
    rw [hc, ok_bind, hl, ok_bind]
    exact Or.inl ⟨_, rfl⟩
  · rw [hc, error_bind]
    exact Or.inr rfl

/-- Witness for the amended C4 at a concrete well-shaped input. -/
theorem c4_reconciliation_error_policy_amended_witness :
    (∃ r, validateClassification
        (.jObj [("shows", .jArr [.jStr "A"]), ("assignments", .jObj [("A", .jArr [.jNum 0])])])
        ({0} : Finset Int) = .ok r) ∨
    validateClassification
        (.jObj [("shows", .jArr [.jStr "A"]), ("assignments", .jObj [("A", .jArr [.jNum 0])])])
        ({0} : Finset Int) = .error .coercionError :=
  c4_reconciliation_error_policy_amended (.jArr [.jStr "A"]) [("A", .jArr [.jNum 0])] {0}
    ⟨[.jStr "A"], rfl, by
      intro v hv
      rw [List.mem_singleton] at hv
      exact ⟨"A", hv⟩⟩
    (by
      intro kv hkv
      rw [List.mem_singleton] at hkv
      exact ⟨[.jNum 0], by rw [hkv]⟩)

/-! ## Code-fence stripping round trip (claim C5) -/

theorem strApp (a b : String) : (a ++ b).data = a.data ++ b.data := by
  cases a
  cases b
  rfl

theorem mk_data_eq (s : String) : String.mk s.data = s := by
  cases s
  rfl

theorem tail_getLast (y : List Char) :
    (y ++ ['\n', '\x60', '\x60', '\x60']).getLast? = some '\x60' := by
  have h : y ++ ['\n', '\x60', '\x60', '\x60'] = (y ++ ['\n', '\x60', '\x60']) ++ ['\x60'] := by
    simp
  rw [h, List.getLast?_concat]

theorem stripChars_eq_self {l : List Char}
    (h1 : ∀ c ∈ l.head?, isPySpace c = false)
    (h2 : ∀ c ∈ l.getLast?, isPySpace c = false) : stripChars l = l := by
  have hd1 : l.dropWhile isPySpace = l := by
    cases l with
    | nil => rfl
    | cons c r => exact List.dropWhile_cons_of_neg (by simp [h1 c rfl])
  have hd2 : l.reverse.dropWhile isPySpace = l.reverse := by
    cases hr : l.reverse with
    | nil => rfl
    | cons c r2 =>
      refine List.dropWhile_cons_of_neg ?_
      have hc : c ∈ l.getLast? := by
        rw [← List.head?_reverse, hr]
        rfl
      simp [h2 c hc]
  unfold stripChars
  rw [hd1, hd2, List.reverse_reverse]

theorem strip_drop_head {c : Char} {r : List Char} (h : stripChars (c :: r) = c :: r) :
    isPySpace c = false := by
  by_contra hcon
  rw [Bool.not_eq_false] at hcon
  have hlen : (stripChars (c :: r)).length ≤ r.length := by
    unfold stripChars
    rw [List.length_reverse]
    calc ((((c :: r).dropWhile isPySpace).reverse).dropWhile isPySpace).length
        ≤ (((c :: r).dropWhile isPySpace).reverse).length := (List.dropWhile_suffix _).length_le
      _ = ((c :: r).dropWhile isPySpace).length := List.length_reverse _
      _ = (r.dropWhile isPySpace).length := by rw [List.dropWhile_cons_of_pos hcon]
      _ ≤ r.length := (List.dropWhile_suffix _).length_le
  rw [h] at hlen
  simp at hlen

theorem bt_not_all_space {l : List Char} (h : '\x60' ∈ l) : l.all isPySpace = false := by
  rw [Bool.eq_false_iff]
  intro hc
  exact absurd (List.all_eq_true.mp hc _ h) (by decide)

theorem bt_mem_drop3 (x : List Char) :
    '\x60' ∈ (x ++ ['\n', '\x60', '\x60', '\x60']).drop 3 := by
  rw [List.drop_append_eq_append_drop]
  refine List.mem_append_right _ ?_
  have hk : 3 - x.length ≤ 3 := Nat.sub_le _ _
  generalize 3 - x.length = k at hk ⊢
  interval_cases k <;> decide

theorem fenceWs_append_false (x : List Char) :
    fenceWs (x ++ ['\n', '\x60', '\x60', '\x60']) = false := by
  unfold fenceWs
  rw [bt_not_all_space (bt_mem_drop3 x), Bool.and_false]

theorem sufMatch_append_false (x : List Char) (hx : x ≠ []) :
    sufMatch (x ++ ['\n', '\x60', '\x60', '\x60']) = false := by
  rcases x with _ | ⟨c, x'⟩
  · exact absurd rfl hx
  · unfold sufMatch
    rw [fenceWs_append_false (c :: x')]
    have h1 : ((c :: x') ++ ['\n', '\x60', '\x60', '\x60']).head? = some c := by
      rw [List.cons_append]
      rfl
    have h2 : ((c :: x') ++ ['\n', '\x60', '\x60', '\x60']).tail =
        x' ++ ['\n', '\x60', '\x60', '\x60'] := by
      rw [List.cons_append]
      rfl
    rw [h1, h2, fenceWs_append_false]
    simp

theorem findSuffixSplit_pos {l : List Char} (h : sufMatch l = true) :
    findSuffixSplit l = some ([], l) := by
  unfold findSuffixSplit
  rw [if_pos h]

theorem findSuffixSplit_neg_cons {c : Char} {rest : List Char}
    (h : sufMatch (c :: rest) = false) :
    findSuffixSplit (c :: rest) = (findSuffixSplit rest).map (fun g => (c :: g.1, g.2)) := by
  conv_lhs => rw [findSuffixSplit]
  rw [if_neg (by simp [h])]

theorem findSuffixSplit_append (t : List Char) :
    findSuffixSplit (t ++ ['\n', '\x60', '\x60', '\x60']) =
      some (t, ['\n', '\x60', '\x60', '\x60']) := by
  induction t with
  | nil =>
    rw [List.nil_append]
    exact findSuffixSplit_pos (by decide)
  | cons c t' ih =>
    have hs := sufMatch_append_false (c :: t') (by simp)
    rw [List.cons_append] at hs
    rw [List.cons_append, findSuffixSplit_neg_cons hs, ih]
    rfl

theorem wsSplits_cons_space {c : Char} {rest : List Char} (h : isPySpace c = true) :
    wsSplits (c :: rest) = wsSplits rest ++ [c :: rest] := by
  simp [wsSplits, h]

theorem wsSplits_cons_nospace {c : Char} {rest : List Char} (h : isPySpace c = false) :
    wsSplits (c :: rest) = [c :: rest] := by
  simp [wsSplits, h]

theorem nlRems_cons_nl (r : List Char) : nlRems ('\n' :: r) = [r, '\n' :: r] := by
  simp [nlRems]

theorem nlRems_not_nl {l : List Char} (h : l.head? ≠ some '\n') : nlRems l = [l] := by
  simp [nlRems, h]

theorem firstSplit_head_some {r : List Char} {rs : List (List Char)}
    {gs : List Char × List Char} (h : findSuffixSplit r = some gs) :
    firstSplit (r :: rs) = some gs := by
  unfold firstSplit
  rw [h]

theorem reMatchGroup_wrap (tag : String) (htag : tag = "json" ∨ tag = "")
    (t : String) (c0 : Char) (td' : List Char) (ht : t.data = c0 :: td')
    (hc0 : isPySpace c0 = false) :
    reMatchGroup (tag.data ++ '\n' :: (t.data ++ ['\n', '\x60', '\x60', '\x60'])) =
      some t.data := by
  have hws0 : wsSplits (t.data ++ ['\n', '\x60', '\x60', '\x60']) =
      [t.data ++ ['\n', '\x60', '\x60', '\x60']] := by
    rw [ht, List.cons_append, wsSplits_cons_nospace hc0, ← List.cons_append, ← ht]
  have hhead : (t.data ++ ['\n', '\x60', '\x60', '\x60']).head? ≠ some '\n' := by
    rw [ht, List.cons_append, List.head?_cons]
    intro hcon
    rw [Option.some.injEq] at hcon
    rw [hcon] at hc0
    exact absurd hc0 (by decide)
  have hfss := findSuffixSplit_append t.data
  have hcand : (wsSplits ('\n' :: (t.data ++ ['\n', '\x60', '\x60', '\x60']))).flatMap nlRems =
      (t.data ++ ['\n', '\x60', '\x60', '\x60']) ::
        ((t.data ++ ['\n', '\x60', '\x60', '\x60']) ::
          ['\n' :: (t.data ++ ['\n', '\x60', '\x60', '\x60'])]) := by
    rw [wsSplits_cons_space (by decide), hws0]
    rw [List.flatMap_append, List.flatMap_cons, List.flatMap_nil, List.flatMap_cons,
      List.flatMap_nil]
    rw [nlRems_not_nl hhead, nlRems_cons_nl]
    simp
  unfold reMatchGroup reHeadRems
  rcases htag with rfl | rfl
  · rw [if_pos (show (("json" : String).data ++
        '\n' :: (t.data ++ ['\n', '\x60', '\x60', '\x60'])).take 4 = ['j', 's', 'o', 'n'] from rfl)]
    have hdrop : (("json" : String).data ++ '\n' :: (t.data ++ ['\n', '\x60', '\x60', '\x60'])).drop 4 =
        '\n' :: (t.data ++ ['\n', '\x60', '\x60', '\x60']) := rfl
    rw [hdrop, List.flatMap_cons, List.flatMap_cons, List.flatMap_nil, hcand]
    rw [List.cons_append, firstSplit_head_some hfss]
    rfl
  · rw [if_neg (show ¬ ((("" : String).data ++
        '\n' :: (t.data ++ ['\n', '\x60', '\x60', '\x60'])).take 4 = ['j', 's', 'o', 'n']) by
      intro hcon
      rw [ht] at hcon
      simp at hcon)]
    rw [List.flatMap_cons, List.flatMap_nil]
    have hb : ("" : String).data ++ '\n' :: (t.data ++ ['\n', '\x60', '\x60', '\x60']) =
        '\n' :: (t.data ++ ['\n', '\x60', '\x60', '\x60']) := rfl
    rw [hb, hcand, List.append_nil, firstSplit_head_some hfss]
    rfl

/-- C5 counterexample: wrapping a valid JSON payload in a fence tagged with a
language other than json does not round-trip — the tag text leaks into the
stripped output, so the result is not independent of the language tag. -/
theorem c5_counterexample :
    stripJsonFromResponse ("```" ++ "yaml" ++ "\n" ++ "\x7b\x7d" ++ "\n```") = "yaml\n\x7b\x7d" ∧
    ("yaml\n\x7b\x7d" : String) ≠ "\x7b\x7d" :=
  ⟨by decide, by decide⟩

/-- C5 (amended): wrapping a nonempty payload that carries no leading or
trailing whitespace (any tightly formatted JSON value) in a code fence with
the json language tag or no tag, and stripping, returns the payload
byte-for-byte; for other language tags the tag text leaks into the result. -/
theorem c5_fence_round_trip_amended (t tag : String)
    (htag : tag = "json" ∨ tag = "")
    (hne : t.data ≠ [])
    (hstrip : stripChars t.data = t.data) :
    stripJsonFromResponse ("```" ++ tag ++ "\n" ++ t ++ "\n```") = t := by
  obtain ⟨c0, td', ht⟩ : ∃ c0 td', t.data = c0 :: td' := by
    cases hd : t.data with
    | nil => exact absurd hd hne
    | cons a b => exact ⟨a, b, rfl⟩
  have hc0 : isPySpace c0 = false := strip_drop_head (ht ▸ hstrip)
  have hdata : ("```" ++ tag ++ "\n" ++ t ++ "\n```").data =
      '\x60' :: '\x60' :: '\x60' ::
        (tag.data ++ '\n' :: (t.data ++ ['\n', '\x60', '\x60', '\x60'])) := by
    rw [strApp, strApp, strApp, strApp]
    rw [show ("```" : String).data = ['\x60', '\x60', '\x60'] from rfl,
      show ("\n" : String).data = ['\n'] from rfl,
      show ("\n```" : String).data = ['\n', '\x60', '\x60', '\x60'] from rfl]
    simp
  have hshape : '\x60' :: '\x60' :: '\x60' ::
      (tag.data ++ '\n' :: (t.data ++ ['\n', '\x60', '\x60', '\x60'])) =
      ('\x60' :: '\x60' :: '\x60' :: (tag.data ++ '\n' :: t.data)) ++
        ['\n', '\x60', '\x60', '\x60'] := by
    simp
  have hraw : stripChars ("```" ++ tag ++ "\n" ++ t ++ "\n```").data =
      ("```" ++ tag ++ "\n" ++ t ++ "\n```").data := by
    apply stripChars_eq_self
    · rw [hdata]
      intro c hc
      have hcc : c = '\x60' := by
        rw [List.head?_cons, Option.mem_def, Option.some.injEq] at hc
        exact hc.symm
      rw [hcc]
      decide
    · rw [hdata, hshape]
      intro c hc
      rw [tail_getLast, Option.mem_def, Option.some.injEq] at hc
      rw [← hc]
      decide
  simp only [stripJsonFromResponse, stripJsonCore]
  rw [hraw, hdata]
  rw [if_neg (by simp)]
  rw [if_pos (show ('\x60' :: '\x60' :: '\x60' ::
      (tag.data ++ '\n' :: (t.data ++ ['\n', '\x60', '\x60', '\x60']))).take 3 =
      ['\x60', '\x60', '\x60'] from rfl)]
  have hdrop3 : ('\x60' :: '\x60' :: '\x60' ::
      (tag.data ++ '\n' :: (t.data ++ ['\n', '\x60', '\x60', '\x60']))).drop 3 =
      tag.data ++ '\n' :: (t.data ++ ['\n', '\x60', '\x60', '\x60']) := rfl
  rw [hdrop3, reMatchGroup_wrap tag htag t c0 td' ht hc0]
  show String.mk (stripChars t.data) = t
  rw [hstrip]

/-- Witness for the amended C5 on a concrete JSON object payload. -/
theorem c5_fence_round_trip_amended_witness :
    stripJsonFromResponse ("```" ++ "json" ++ "\n" ++ "\x7b\"k\": 1\x7d" ++ "\n```") =
      "\x7b\"k\": 1\x7d" :=
  c5_fence_round_trip_amended "\x7b\"k\": 1\x7d" "json" (Or.inl rfl) (by decide) (by decide)

/-! ## Insertion-row expansion (claim C7) -/

theorem jStr_inj {s1 s2 : String} (h : JVal.jStr s1 = JVal.jStr s2) : s1 = s2 := by
  injection h

theorem itemToRows_obj (kvs0 : List (String × JVal)) :
    itemToRows (.jObj kvs0) =
      (if pyFalsy (dictGet kvs0 "insertion_dates" (.jArr [])) = true then
        pyIterList (normalizeOldDates (dictGet kvs0 "insertion_date_per_io" (.jArr []))) >>=
          fun ds =>
            (if (legacyInsertions ds (dictGet kvs0 "amount" (.jStr "Not specified"))).isEmpty then
                [placeholderIns]
              else
                legacyInsertions ds (dictGet kvs0 "amount" (.jStr "Not specified"))).mapM
              (rowOfIns (baseOf kvs0))
      else
        pyIterList (dictGet kvs0 "insertion_dates" (.jArr [])) >>= fun srcRows =>
          srcRows.mapM (rowOfIns (baseOf kvs0))) := rfl

theorem itemToRows_ok_obj {item : JVal} {rows : List ShowData}
    (h : itemToRows item = .ok rows) : ∃ kvs0, item = .jObj kvs0 := by
  cases item with
  | jObj kvs0 => exact ⟨kvs0, rfl⟩
  | jNull =>
    rw [show itemToRows JVal.jNull = Except.error PyErr.attributeError from rfl] at h
    simp at h
  | jBool b =>
    rw [show itemToRows (JVal.jBool b) = Except.error PyErr.attributeError from rfl] at h
    simp at h
  | jNum n =>
    rw [show itemToRows (JVal.jNum n) = Except.error PyErr.attributeError from rfl] at h
    simp at h
  | jStr s =>
    rw [show itemToRows (JVal.jStr s) = Except.error PyErr.attributeError from rfl] at h
    simp at h
  | jArr xs =>
    rw [show itemToRows (JVal.jArr xs) = Except.error PyErr.attributeError from rfl] at h
    simp at h

theorem mkRow_ok_fields {b : ShowBase} {d a : JVal} {r : ShowData} (h : mkRow b d a = .ok r) :
    b.podcast_booked = .jStr r.podcast_booked ∧ b.agency = .jStr r.agency ∧
    b.advertiser = .jStr r.advertiser ∧ b.type = .jStr r.type ∧
    d = .jStr r.insertion_date ∧ b.draft_required_yn = .jStr r.draft_required_yn ∧
    b.impressions = .jStr r.impressions ∧ a = .jStr r.amount ∧
    b.payment_terms = .jStr r.payment_terms ∧
    b.requires_pixel_tracker_yn = .jStr r.requires_pixel_tracker_yn ∧
    b.notes = .jStr r.notes := by
  unfold mkRow at h
  rw [bind_ok_iff] at h
  obtain ⟨pb, hpb, h⟩ := h
  rw [bind_ok_iff] at h
  obtain ⟨ag, hag, h⟩ := h
  rw [bind_ok_iff] at h
  obtain ⟨ad, had, h⟩ := h
  rw [bind_ok_iff] at h
  obtain ⟨ty, hty, h⟩ := h
  rw [bind_ok_iff] at h
  obtain ⟨dt, hdt, h⟩ := h
  rw [bind_ok_iff] at h
  obtain ⟨dr, hdr, h⟩ := h
  rw [bind_ok_iff] at h
  obtain ⟨im, him, h⟩ := h
  rw [bind_ok_iff] at h
  obtain ⟨am, ham, h⟩ := h
  rw [bind_ok_iff] at h
  obtain ⟨pt, hpt, h⟩ := h
  rw [bind_ok_iff] at h
  obtain ⟨px, hpx, h⟩ := h
  rw [bind_ok_iff] at h
  obtain ⟨no, hno, h⟩ := h
  rw [pure_ok] at h
  injection h with h
  subst h
  exact ⟨pyStr?_ok_iff.mp hpb, pyStr?_ok_iff.mp hag, pyStr?_ok_iff.mp had, pyStr?_ok_iff.mp hty,
    pyStr?_ok_iff.mp hdt, pyStr?_ok_iff.mp hdr, pyStr?_ok_iff.mp him, pyStr?_ok_iff.mp ham,
    pyStr?_ok_iff.mp hpt, pyStr?_ok_iff.mp hpx, pyStr?_ok_iff.mp hno⟩

theorem rowOfIns_obj (b : ShowBase) (kvs : List (String × JVal)) :
    rowOfIns b (.jObj kvs) =
      mkRow b (dictGet kvs "date" (.jStr "Not specified"))
        (dictGet kvs "amount" (.jStr "Not specified")) := rfl

theorem rowOfIns_ok_mkRow {b : ShowBase} {ins : JVal} {r : ShowData}
    (h : rowOfIns b ins = .ok r) : ∃ d a, mkRow b d a = .ok r := by
  cases ins <;> exact ⟨_, _, h⟩

/-- C7: a show record with k date/amount pairs in `insertion_dates` (k > 0)
expands to exactly k output rows, each duplicating the record's show-level
fields with that pair's date and amount; a record with zero pairs and no
legacy-format dates expands to exactly one placeholder row, never zero. -/
theorem c7_insertion_row_expansion (item : JVal) (rows : List ShowData)
    (hok : itemToRows item = .ok rows) :
    (∀ l, itemGet item "insertion_dates" (.jArr []) = .ok (.jArr l) → l ≠ [] →
      rows.length = l.length ∧
      (∀ r1 ∈ rows, ∀ r2 ∈ rows,
        r1.podcast_booked = r2.podcast_booked ∧ r1.agency = r2.agency ∧
        r1.advertiser = r2.advertiser ∧ r1.type = r2.type ∧
        r1.draft_required_yn = r2.draft_required_yn ∧ r1.impressions = r2.impressions ∧
        r1.payment_terms = r2.payment_terms ∧
        r1.requires_pixel_tracker_yn = r2.requires_pixel_tracker_yn ∧ r1.notes = r2.notes) ∧
      (∀ (j : Nat) (hj : j < l.length) (hj2 : j < rows.length) (kvs : List (String × JVal))
          (dd aa : String),
        l.get ⟨j, hj⟩ = .jObj kvs →
        dictGet kvs "date" (.jStr "Not specified") = .jStr dd →
        dictGet kvs "amount" (.jStr "Not specified") = .jStr aa →
        (rows.get ⟨j, hj2⟩).insertion_date = dd ∧ (rows.get ⟨j, hj2⟩).amount = aa)) ∧
    (itemGet item "insertion_dates" (.jArr []) = .ok (.jArr []) →
     itemGet item "insertion_date_per_io" (.jArr []) = .ok (.jArr []) →
      rows.length = 1 ∧
      ∀ r ∈ rows, r.insertion_date = "Not specified" ∧ r.amount = "Not specified") := by
  obtain ⟨kvs0, rfl⟩ := itemToRows_ok_obj hok
  rw [itemToRows_obj] at hok
  constructor
  · intro l hl hlne
    have hl' : dictGet kvs0 "insertion_dates" (.jArr []) = .jArr l :=
      Except.ok.inj (show Except.ok (dictGet kvs0 "insertion_dates" (.jArr [])) =
        Except.ok (JVal.jArr l) from hl)
    rw [hl'] at hok
    have hfal : pyFalsy (JVal.jArr l) = false := by
      cases l with
      | nil => exact absurd rfl hlne
      | cons x xs => rfl
    rw [if_neg (by simp [hfal])] at hok
    rw [pyIterList_arr, ok_bind] at hok
    have hf := mapM_ok_forall₂ hok
    have hlen := hf.length_eq
    have hget := (List.forall₂_iff_get.mp hf).2
    refine ⟨hlen.symm, ?_, ?_⟩
    · intro r1 hr1 r2 hr2
      obtain ⟨⟨i1, hi1l⟩, hi1e⟩ := List.mem_iff_get.mp hr1
      obtain ⟨⟨i2, hi2l⟩, hi2e⟩ := List.mem_iff_get.mp hr2
      have h1 := hget i1 (by omega) hi1l
      have h2 := hget i2 (by omega) hi2l
      rw [hi1e] at h1
      rw [hi2e] at h2
      obtain ⟨d1, a1, hm1⟩ := rowOfIns_ok_mkRow h1
      obtain ⟨d2, a2, hm2⟩ := rowOfIns_ok_mkRow h2
      obtain ⟨p1, q1, w1, e1, _, t1, y1, _, u1, i1f, o1⟩ := mkRow_ok_fields hm1
      obtain ⟨p2, q2, w2, e2, _, t2, y2, _, u2, i2f, o2⟩ := mkRow_ok_fields hm2
      exact ⟨jStr_inj (p1.symm.trans p2), jStr_inj (q1.symm.trans q2),
        jStr_inj (w1.symm.trans w2), jStr_inj (e1.symm.trans e2),
        jStr_inj (t1.symm.trans t2), jStr_inj (y1.symm.trans y2),
        jStr_inj (u1.symm.trans u2), jStr_inj (i1f.symm.trans i2f),
        jStr_inj (o1.symm.trans o2)⟩
    · intro j hj hj2 kvs dd aa hobj hdate hamount
      have hptw := hget j hj hj2
      rw [hobj, rowOfIns_obj, hdate, hamount] at hptw
      obtain ⟨f1, f2, f3, f4, f5, f6, f7, f8, f9, f10, f11⟩ := mkRow_ok_fields hptw
      exact ⟨(jStr_inj f5).symm, (jStr_inj f8).symm⟩
  · intro hins hleg
    have hins' : dictGet kvs0 "insertion_dates" (.jArr []) = .jArr [] :=
      Except.ok.inj (show Except.ok (dictGet kvs0 "insertion_dates" (.jArr [])) =
        Except.ok (JVal.jArr []) from hins)
    have hleg' : dictGet kvs0 "insertion_date_per_io" (.jArr []) = .jArr [] :=
      Except.ok.inj (show Except.ok (dictGet kvs0 "insertion_date_per_io" (.jArr [])) =
        Except.ok (JVal.jArr []) from hleg)
    rw [hins', hleg'] at hok
    have hok2 : [placeholderIns].mapM (rowOfIns (baseOf kvs0)) = .ok rows := hok
    rw [List.mapM_cons, bind_ok_iff] at hok2
    obtain ⟨r0, hr0, hrest⟩ := hok2
    have h3 : Except.ok [r0] = Except.ok rows := hrest
    injection h3 with h3
    subst h3
    have hph : rowOfIns (baseOf kvs0) placeholderIns =
        mkRow (baseOf kvs0) (.jStr "Not specified") (.jStr "Not specified") := rfl
    rw [hph] at hr0
    obtain ⟨g1, g2, g3, g4, g5, g6, g7, g8, g9, g10, g11⟩ := mkRow_ok_fields hr0
    refine ⟨rfl, ?_⟩
    intro r hr
    rw [List.mem_singleton] at hr
    subst hr
    exact ⟨(jStr_inj g5).symm, (jStr_inj g8).symm⟩

/-- Witness for C7: a two-pair record expands to two rows and a no-pair
record expands to the single placeholder row. -/
theorem c7_insertion_row_expansion_witness :
    (([⟨"Show A", "Agency", "Brand", "podcast", "03/02/2026", "Y", "600,000", "$6,000",
        "Net 60", "N", ""⟩,
      ⟨"Show A", "Agency", "Brand", "podcast", "04/01/2026", "Y", "600,000", "$7,000",
        "Net 60", "N", ""⟩] : List ShowData).length =
      ([.jObj [("date", .jStr "03/02/2026"), ("amount", .jStr "$6,000")],
        .jObj [("date", .jStr "04/01/2026"), ("amount", .jStr "$7,000")]] : List JVal).length ∧
     (∀ r1 ∈ ([⟨"Show A", "Agency", "Brand", "podcast", "03/02/2026", "Y", "600,000", "$6,000",
          "Net 60", "N", ""⟩,
        ⟨"Show A", "Agency", "Brand", "podcast", "04/01/2026", "Y", "600,000", "$7,000",
          "Net 60", "N", ""⟩] : List ShowData),
      ∀ r2 ∈ ([⟨"Show A", "Agency", "Brand", "podcast", "03/02/2026", "Y", "600,000", "$6,000",
          "Net 60", "N", ""⟩,
        ⟨"Show A", "Agency", "Brand", "podcast", "04/01/2026", "Y", "600,000", "$7,000",
          "Net 60", "N", ""⟩] : List ShowData),
        r1.podcast_booked = r2.podcast_booked ∧ r1.agency = r2.agency ∧
        r1.advertiser = r2.advertiser ∧ r1.type = r2.type ∧
        r1.draft_required_yn = r2.draft_required_yn ∧ r1.impressions = r2.impressions ∧
        r1.payment_terms = r2.payment_terms ∧
        r1.requires_pixel_tracker_yn = r2.requires_pixel_tracker_yn ∧ r1.notes = r2.notes) ∧
     (∀ (j : Nat)
        (hj : j < ([.jObj [("date", .jStr "03/02/2026"), ("amount", .jStr "$6,000")],
          .jObj [("date", .jStr "04/01/2026"), ("amount", .jStr "$7,000")]] : List JVal).length)
        (hj2 : j < ([⟨"Show A", "Agency", "Brand", "podcast", "03/02/2026", "Y", "600,000",
            "$6,000", "Net 60", "N", ""⟩,
          ⟨"Show A", "Agency", "Brand", "podcast", "04/01/2026", "Y", "600,000", "$7,000",
            "Net 60", "N", ""⟩] : List ShowData).length)
        (kvs : List (String × JVal)) (dd aa : String),
        ([.jObj [("date", .jStr "03/02/2026"), ("amount", .jStr "$6,000")],
          .jObj [("date", .jStr "04/01/2026"), ("amount", .jStr "$7,000")]] : List JVal).get
            ⟨j, hj⟩ = .jObj kvs →
        dictGet kvs "date" (.jStr "Not specified") = .jStr dd →
        dictGet kvs "amount" (.jStr "Not specified") = .jStr aa →
        (([⟨"Show A", "Agency", "Brand", "podcast", "03/02/2026", "Y", "600,000", "$6,000",
            "Net 60", "N", ""⟩,
          ⟨"Show A", "Agency", "Brand", "podcast", "04/01/2026", "Y", "600,000", "$7,000",
            "Net 60", "N", ""⟩] : List ShowData).get ⟨j, hj2⟩).insertion_date = dd ∧
        (([⟨"Show A", "Agency", "Brand", "podcast", "03/02/2026", "Y", "600,000", "$6,000",
            "Net 60", "N", ""⟩,
          ⟨"Show A", "Agency", "Brand", "podcast", "04/01/2026", "Y", "600,000", "$7,000",
            "Net 60", "N", ""⟩] : List ShowData).get ⟨j, hj2⟩).amount = aa)) ∧
    (([⟨"Show B", "Not specified", "Not specified", "Not specified", "Not specified", "N",
        "Not specified", "Not specified", "Not specified", "N", ""⟩] : List ShowData).length = 1 ∧
      ∀ r ∈ ([⟨"Show B", "Not specified", "Not specified", "Not specified", "Not specified", "N",
          "Not specified", "Not specified", "Not specified", "N", ""⟩] : List ShowData),
        r.insertion_date = "Not specified" ∧ r.amount = "Not specified") :=
  ⟨(c7_insertion_row_expansion c7Item
      [⟨"Show A", "Agency", "Brand", "podcast", "03/02/2026", "Y", "600,000", "$6,000",
        "Net 60", "N", ""⟩,
      ⟨"Show A", "Agency", "Brand", "podcast", "04/01/2026", "Y", "600,000", "$7,000",
        "Net 60", "N", ""⟩] (by decide)).1
      [.jObj [("date", .jStr "03/02/2026"), ("amount", .jStr "$6,000")],
        .jObj [("date", .jStr "04/01/2026"), ("amount", .jStr "$7,000")]]
      rfl (by simp),
    (c7_insertion_row_expansion c7EmptyItem
      [⟨"Show B", "Not specified", "Not specified", "Not specified", "Not specified", "N",
        "Not specified", "Not specified", "Not specified", "N", ""⟩] (by decide)).2 rfl rfl⟩

/-! ## Concrete sanity checks of the embedding -/

example :
    validateClassification
      (.jObj [("shows", .jArr [.jStr "X"]), ("assignments", .jObj [("X", .jArr [.jNum 0, .jNum 1])])])
      ({0, 1} : Finset Int) =
    .ok ⟨["X"], [("X", [0, 1]), ("GLOBAL", []), ("GLOBAL_REDACT", []), ("UNCLASSIFIED", [])]⟩ := by
  decide

example :
    validateClassification
      (.jObj [("shows", .jArr []), ("assignments", .jObj [("A", .jArr [.jNum 0, .jNum 1, .jNum 99])])])
      ({0, 1} : Finset Int) =
    .ok ⟨[], [("A", [0, 1]), ("GLOBAL", []), ("GLOBAL_REDACT", []), ("UNCLASSIFIED", [])]⟩ := by
  decide

example : validateClassification (.jArr []) (∅ : Finset Int) = .error .attributeError := rfl

example : stripJsonFromResponse "" = "\x7b\x7d" := by decide

example : stripJsonFromResponse "  \n " = "\x7b\x7d" := by decide

example : stripJsonFromResponse "\x7b\"a\": 1\x7d" = "\x7b\"a\": 1\x7d" := by decide

example : stripJsonFromResponse "```json\n\x7b\x7d\n```" = "\x7b\x7d" := by decide

example : stripJsonFromResponse "```\n[1, 2]\n```" = "[1, 2]" := by decide

example : stripJsonFromResponse "```yaml\n\x7b\x7d\n```" = "yaml\n\x7b\x7d" := by decide

example : stripJsonFromResponse "```json\n[1" = "[1" := by decide

end PdfRedactor
